import Mathlib

/-!
# Verification of the fuzzy customer-name resolution pipeline (`fuzzy_load.py`)

This file gives a shallow embedding of the name-matching core of
`src/fuzzy_load.py` and proves/refutes the specified properties.

Python strings are modelled as `List Char` (`PyStr`).  Python code that can
raise is modelled with `Except String` (the error message mirrors the Python
exception); a Python `None` that is an ordinary return value is modelled with
`Option`.

The repository calls into the `thefuzz` library (which delegates to
`rapidfuzz`).  That library is an external dependency, so its two entry points
used by the source (`fuzz.token_set_ratio` and `process.extractOne`) are
modelled here from the library's documented semantics:

* `full_process` preprocessing: keep ASCII, replace every non-word character
  (not `[a-zA-Z0-9_]`) by a space, lowercase, strip.
* `token_set_ratio`: split both processed strings into whitespace tokens,
  deduplicate, and compare the sorted intersection string against the two
  "intersection + difference" strings with the normalized Indel similarity
  (scaled to 0..100); if either token set is empty the score is 0, and if the
  token sets are in a containment relation the score is 100.
* `process.extractOne(query, choices, scorer, score_cutoff)`: scan the choices
  in order keeping the first choice of maximal score, ignoring scores below
  `score_cutoff` (inclusive: a score equal to the cutoff is kept); `None` when
  no choice qualifies (in particular on an empty choice list).
* scores are rationals internally; `thefuzz` converts a returned score with
  Python `round` (half-to-even), modelled by `pyRound`.
-/

/-- A Python string, modelled as its list of characters. -/
abbrev PyStr := List Char

/-- Python `s.split(' ')`: split on every single space character; empty pieces
are kept, and the result is never the empty list. -/
def splitSp : PyStr → List PyStr
  | [] => [[]]
  | c :: cs =>
    if c = ' ' then [] :: splitSp cs
    else
      match splitSp cs with
      | [] => [[c]]
      | t :: ts => (c :: t) :: ts

/-- Python `" ".join l` for a list of strings. -/
def joinSp : List PyStr → PyStr
  | [] => []
  | [x] => x
  | x :: y :: ys => x ++ ' ' :: joinSp (y :: ys)

/-- Python `s.split()` (no separator): whitespace tokens, dropping empties.
Only applied to processed strings, whose whitespace is all `' '`. -/
def pyWords (s : PyStr) : List PyStr := (splitSp s).filter (fun t => t ≠ [])

/-- A word character in the sense of the regex `\w`: `[a-zA-Z0-9_]`. -/
def isWordChar (c : Char) : Bool := c.isAlphanum || c = '_'

/-- Strip leading and trailing spaces. -/
def stripSp (l : PyStr) : PyStr :=
  ((l.dropWhile (fun c => c = ' ')).reverse.dropWhile (fun c => c = ' ')).reverse

/-- Model of `thefuzz.utils.full_process` with `force_ascii=True`: discard
non-ASCII characters, replace non-word characters by spaces, lowercase,
strip. -/
def fullProcess (s : PyStr) : PyStr :=
  stripSp ((s.filter (fun c => c.toNat ≤ 127)).map
    (fun c => if isWordChar c then c.toLower else ' '))

/-- Lexicographic (code-point) strict order on Python strings. -/
def strLt : PyStr → PyStr → Bool
  | [], [] => false
  | [], _ :: _ => true
  | _ :: _, [] => false
  | a :: as, b :: bs => if a < b then true else if b < a then false else strLt as bs

/-- Insert into a lexicographically sorted list of strings. -/
def insertSorted (x : PyStr) : List PyStr → List PyStr
  | [] => [x]
  | y :: ys => if strLt y x then y :: insertSorted x ys else x :: y :: ys

/-- Python `sorted` on a list of strings (insertion sort; the inputs it is
applied to are duplicate-free, so stability is irrelevant). -/
def sortStrs : List PyStr → List PyStr
  | [] => []
  | x :: xs => insertSorted x (sortStrs xs)

/-- One dynamic-programming row update for the longest common subsequence:
given the previous row (distributed into `diag`/`prev`) and the new row built
so far (`cur`), extend along `as`. -/
def lcsRowAux (c : Char) : List Char → List Nat → Nat → Nat → List Nat
  | [], _, _, _ => []
  | a :: as, prev, diag, cur =>
    let up := prev.headD 0
    let v := if a = c then diag + 1 else max up cur
    v :: lcsRowAux c as prev.tail up v

/-- Length of a longest common subsequence of two character lists
(row-by-row dynamic programming, structurally recursive). -/
def lcs (a b : List Char) : Nat :=
  (b.foldl
    (fun prev c => 0 :: lcsRowAux c a prev.tail (prev.headD 0) 0)
    (List.replicate (a.length + 1) 0)).getLastD 0

/-- The Indel distance (edit distance with insertions and deletions only):
`len a + len b - 2 * lcs a b`. -/
def indelDist (a b : PyStr) : Nat := a.length + b.length - 2 * lcs a b

/-- Model of `rapidfuzz.fuzz.ratio`: normalized Indel similarity scaled to
0..100 (100 when both strings are empty). -/
def indelSim (a b : PyStr) : ℚ :=
  let s := a.length + b.length
  if s = 0 then 100 else 100 * (1 - (indelDist a b : ℚ) / (s : ℚ))

/-- Model of `thefuzz.fuzz.token_set_ratio` (delegating to
`rapidfuzz.fuzz.token_set_ratio` on the `full_process`-ed strings), as an
exact rational. -/
def tokenSetScore (s1 s2 : PyStr) : ℚ :=
  let ta := (pyWords (fullProcess s1)).dedup
  let tb := (pyWords (fullProcess s2)).dedup
  if ta.isEmpty || tb.isEmpty then 0
  else
    let inter := sortStrs (ta.filter (fun t => t ∈ tb))
    let d12 := sortStrs (ta.filter (fun t => t ∉ tb))
    let d21 := sortStrs (tb.filter (fun t => t ∉ ta))
    if !inter.isEmpty && (d12.isEmpty || d21.isEmpty) then 100
    else
      max (max (indelSim (joinSp inter) (joinSp (inter ++ d12)))
               (indelSim (joinSp inter) (joinSp (inter ++ d21))))
          (indelSim (joinSp (inter ++ d12)) (joinSp (inter ++ d21)))

/-- Python `round` on an exact rational: round half to even. -/
def pyRound (q : ℚ) : ℤ :=
  let f := ⌊q⌋
  if q - f < 1/2 then f
  else if 1/2 < q - f then f + 1
  else if f % 2 = 0 then f else f + 1

/-- Work loop of `rapidfuzz.process.extractOne`: scan the choices keeping the
first choice whose score is maximal so far; a candidate is only admitted when
its score is at least `cutoff`, and an admitted best is replaced only by a
strictly greater score. -/
def extractOneAux (f : PyStr → ℚ) (cutoff : ℚ) :
    List PyStr → Option (PyStr × ℚ) → Option (PyStr × ℚ)
  | [], acc => acc
  | c :: cs, acc =>
    match acc with
    | none =>
      extractOneAux f cutoff cs (if cutoff ≤ f c then some (c, f c) else none)
    | some (b, bs) =>
      extractOneAux f cutoff cs (if bs < f c then some (c, f c) else some (b, bs))

/-- Model of `thefuzz.process.extractOne(query, choices,
scorer=fuzz.token_set_ratio, score_cutoff=cutoff)`; `none` exactly when no
choice scores at least `cutoff` (in particular on an empty choice list). -/
def extractOneModel (query : PyStr) (choices : List PyStr) (cutoff : ℚ) :
    Option (PyStr × ℚ) :=
  extractOneAux (fun c => tokenSetScore query c) cutoff choices none

/-- `get_best_score` (src/fuzzy_load.py lines 42-54): unpacks the pair
returned by `extractOne` with cutoff 0 and returns the rounded score.  On an
empty choice list `extractOne` returns `None` and the unpacking raises. -/
def get_best_score (name : PyStr) (choices : List PyStr) : Except String ℤ :=
  match extractOneModel name choices 0 with
  | some r => Except.ok (pyRound r.2)
  | none => Except.error "TypeError: cannot unpack non-iterable NoneType object"

/-- `extract_best` (src/fuzzy_load.py lines 56-71): best choice if its score
reaches the threshold (inclusive), otherwise `None` — also `None` on an empty
choice list. -/
def extract_best (name : PyStr) (choices : List PyStr) (threshold : ℚ := 75) :
    Option PyStr :=
  (extractOneModel name choices threshold).map Prod.fst

/-- The best token-set score of `name` against `choices` (0 for an empty
list); for nonempty `choices` this is the maximum score since scores are
nonnegative. -/
def bestScoreQ (name : PyStr) (choices : List PyStr) : ℚ :=
  (choices.map (fun c => tokenSetScore name c)).foldr max 0

/-- A row of `transactions.csv`.  Cell contents other than `customer_name` are
opaque payload for the pipeline and are modelled as strings. -/
structure Transaction where
  transaction_id : PyStr
  amount : PyStr
  transaction_date : PyStr
  customer_id : PyStr
  email : PyStr
  customer_name : PyStr
deriving DecidableEq, Repr

/-- A row of `customers.csv`. -/
structure Customer where
  customer_id : PyStr
  email : PyStr
  customer_name : PyStr
deriving DecidableEq, Repr

/-- A row of `merged_df` right after the left merge (src/fuzzy_load.py lines
189-196).  The overlapping columns `customer_id`, `email`, `customer_name`
get the suffixes `_1` (transaction side) and `_2` (customer side); the
customer side of an unmatched transaction is missing (`none`, pandas `NaN`).
The helper column `external_name` is dropped again on line 202 and is not
carried further. -/
structure MergedRow where
  transaction_id : PyStr
  amount : PyStr
  transaction_date : PyStr
  customer_id_1 : PyStr
  email_1 : PyStr
  customer_name_1 : PyStr
  customer_id_2 : Option PyStr
  email_2 : Option PyStr
  customer_name_2 : Option PyStr
deriving DecidableEq, Repr

/-- A merged row after `merged_df.fillna(' ')` (line 199): every missing
value has been replaced by the one-character string `" "`. -/
structure FilledRow where
  transaction_id : PyStr
  amount : PyStr
  transaction_date : PyStr
  customer_id_1 : PyStr
  email_1 : PyStr
  customer_name_1 : PyStr
  customer_id_2 : PyStr
  email_2 : PyStr
  customer_name_2 : PyStr
deriving DecidableEq, Repr

/-- A merged row together with the four score columns added on lines
205-208. -/
structure ScoredRow where
  transaction_id : PyStr
  amount : PyStr
  transaction_date : PyStr
  customer_id_1 : PyStr
  email_1 : PyStr
  customer_name_1 : PyStr
  customer_id_2 : PyStr
  email_2 : PyStr
  customer_name_2 : PyStr
  score_1 : ℤ
  score_2 : ℤ
  score_last_1 : ℤ
  score_last_2 : ℤ
deriving DecidableEq, Repr

/-- A row of the final dataframe (after line 210 dropped the two name
variants and the score columns): the surviving columns are the transaction
payload, the suffixed `customer_id`/`email` pairs, and the disambiguated
`customer_name`. -/
structure ResolvedRow where
  transaction_id : PyStr
  amount : PyStr
  transaction_date : PyStr
  customer_id_1 : PyStr
  email_1 : PyStr
  customer_id_2 : PyStr
  email_2 : PyStr
  customer_name : PyStr
deriving DecidableEq, Repr

/-- The rows the left merge (lines 186-196) produces for one transaction:
its `customer_name` is resolved with `extract_best` against the full customer
name list (threshold 75), and the transaction is joined to every customer row
whose canonical name equals the resolved name — none matching (or no resolved
name at all, pandas `NaN` key) leaves a single row with a missing customer
side. -/
def rowsForTransaction (cs : List Customer) (t : Transaction) : List MergedRow :=
  let e := extract_best t.customer_name (cs.map (fun c => c.customer_name)) 75
  let hits := cs.filter (fun c => decide (e = some c.customer_name))
  if hits.isEmpty then
    [{ transaction_id := t.transaction_id, amount := t.amount,
       transaction_date := t.transaction_date, customer_id_1 := t.customer_id,
       email_1 := t.email, customer_name_1 := t.customer_name,
       customer_id_2 := none, email_2 := none, customer_name_2 := none }]
  else
    hits.map (fun c =>
      { transaction_id := t.transaction_id, amount := t.amount,
        transaction_date := t.transaction_date, customer_id_1 := t.customer_id,
        email_1 := t.email, customer_name_1 := t.customer_name,
        customer_id_2 := some c.customer_id, email_2 := some c.email,
        customer_name_2 := some c.customer_name })

/-- The full left merge of lines 186-196: transaction order is preserved and
each transaction contributes its `rowsForTransaction` block. -/
def mergedRows (txs : List Transaction) (cs : List Customer) : List MergedRow :=
  txs.flatMap (fun t => rowsForTransaction cs t)

/-- `merged_df.fillna(' ')` (line 199) on one row: every missing customer-side
value becomes the one-character string `" "`. -/
def fillRow (r : MergedRow) : FilledRow :=
  { transaction_id := r.transaction_id, amount := r.amount,
    transaction_date := r.transaction_date, customer_id_1 := r.customer_id_1,
    email_1 := r.email_1, customer_name_1 := r.customer_name_1,
    customer_id_2 := r.customer_id_2.getD [' '],
    email_2 := r.email_2.getD [' '],
    customer_name_2 := r.customer_name_2.getD [' '] }

/-- Python list indexing `l[i]`, which raises `IndexError` out of bounds. -/
def pyIndex (l : List PyStr) (i : Nat) : Except String PyStr :=
  match l[i]? with
  | some v => Except.ok v
  | none => Except.error "IndexError: list index out of range"

/-- The score columns of lines 205-208 for one row: the first space-separated
token of each name variant is scored against the pooled female and male first
names, the second token against the last names.  (The source computes each
column for the whole frame at a time; per row the same four scores are
produced, and any raise aborts the batch either way.) -/
def scoreRow (firstNames lastNames : List PyStr) (r : FilledRow) :
    Except String ScoredRow := do
  let s1 ← get_best_score (← pyIndex (splitSp r.customer_name_1) 0) firstNames
  let s2 ← get_best_score (← pyIndex (splitSp r.customer_name_2) 0) firstNames
  let sl1 ← get_best_score (← pyIndex (splitSp r.customer_name_1) 1) lastNames
  let sl2 ← get_best_score (← pyIndex (splitSp r.customer_name_2) 1) lastNames
  pure { transaction_id := r.transaction_id, amount := r.amount,
         transaction_date := r.transaction_date,
         customer_id_1 := r.customer_id_1, email_1 := r.email_1,
         customer_name_1 := r.customer_name_1,
         customer_id_2 := r.customer_id_2, email_2 := r.email_2,
         customer_name_2 := r.customer_name_2,
         score_1 := s1, score_2 := s2, score_last_1 := sl1, score_last_2 := sl2 }

/-- `select_best_full_name` (src/fuzzy_load.py lines 73-97): pick the first
token of whichever name variant has the strictly higher first-name score
(ties prefer variant 1), independently pick the second token of whichever
variant has the strictly higher last-name score (ties prefer variant 1), and
join them with a single space. -/
def select_best_full_name (row : ScoredRow) : Except String PyStr := do
  let bestFirst ←
    if row.score_1 > row.score_2 then pyIndex (splitSp row.customer_name_1) 0
    else if row.score_2 > row.score_1 then pyIndex (splitSp row.customer_name_2) 0
    else pyIndex (splitSp row.customer_name_1) 0
  let bestLast ←
    if row.score_last_1 > row.score_last_2 then pyIndex (splitSp row.customer_name_1) 1
    else if row.score_last_2 > row.score_last_1 then pyIndex (splitSp row.customer_name_2) 1
    else pyIndex (splitSp row.customer_name_1) 1
  pure (bestFirst ++ ' ' :: bestLast)

/-- Line 209 followed by the column drop of line 210, for one scored row. -/
def resolveRow (r : ScoredRow) : Except String ResolvedRow := do
  let nm ← select_best_full_name r
  pure { transaction_id := r.transaction_id, amount := r.amount,
         transaction_date := r.transaction_date,
         customer_id_1 := r.customer_id_1, email_1 := r.email_1,
         customer_id_2 := r.customer_id_2, email_2 := r.email_2,
         customer_name := nm }

/-- The resolved output rows a single transaction contributes to the final
frame of `main` (lines 186-210): merge, fill, score, disambiguate. -/
def resolveTransaction (firstNames lastNames : List PyStr) (cs : List Customer)
    (t : Transaction) : Except String (List ResolvedRow) :=
  (rowsForTransaction cs t).mapM
    (fun m => do resolveRow (← scoreRow firstNames lastNames (fillRow m)))

/-- The final table of `main` (lines 182-210) just before the column rename
and upload, for in-memory inputs: transactions, customers, and the three
reference name lists (`first:female`, `first:male`, `last`).  The first-name
scoring pool is the concatenation of the female and male lists (lines
205-206).  An exception in any row aborts the whole batch. -/
def mainRows (txs : List Transaction) (cs : List Customer)
    (refFemale refMale refLast : List PyStr) : Except String (List ResolvedRow) := do
  let blocks ← txs.mapM (resolveTransaction (refFemale ++ refMale) refLast cs)
  pure blocks.flatten

/-- The column labels of `transactions.csv` in file order. -/
def transactionsColumns : List String :=
  ["transaction_id", "amount", "transaction_date", "customer_id", "email",
   "customer_name"]

/-- The column labels of `customers.csv` in file order. -/
def customersColumns : List String := ["customer_id", "email", "customer_name"]

/-- Column-level model of `pd.merge(..., suffixes=('_1', '_2'))` with distinct
`left_on`/`right_on` keys: left columns first, then right columns, with every
label occurring on both sides suffixed. -/
def mergeColumns (l r : List String) (ls rs : String) : List String :=
  l.map (fun c => if c ∈ r then c ++ ls else c) ++
    r.map (fun c => if c ∈ l then c ++ rs else c)

/-- Python `str.upper` on an ASCII column label. -/
def upperName (s : String) : String := String.mk (s.data.map Char.toUpper)

/-- The column labels of the final dataframe of `main` (lines 186-213): add
`external_name`, merge with suffixes, drop `external_name`, append the four
score columns and `customer_name`, drop the name variants and scores,
uppercase. -/
def finalColumns : List String :=
  (((mergeColumns (transactionsColumns ++ ["external_name"]) customersColumns
      "_1" "_2").filter (fun c => c ≠ "external_name") ++
    ["score_1", "score_2", "score_last_1", "score_last_2", "customer_name"]).filter
      (fun c => c ∉ ["customer_name_1", "customer_name_2", "score_1", "score_2",
        "score_last_1", "score_last_2"])).map upperName

/-- The name variant whose second token `select_best_full_name` sends to the
output: variant 1 when its last-name score is strictly higher or tied,
variant 2 when variant 2's last-name score is strictly higher.  (The first
token is read from an analogous source, but indexing a split at 0 never
fails, so only this source determines failure.) -/
def lastTokenSource (r : ScoredRow) : PyStr :=
  if r.score_last_1 > r.score_last_2 then r.customer_name_1
  else if r.score_last_2 > r.score_last_1 then r.customer_name_2
  else r.customer_name_1

/-! ## Basic lemmas about the string model -/

theorem splitSp_ne_nil (s : PyStr) : splitSp s ≠ [] := by
  cases s with
  | nil => simp [splitSp]
  | cons c cs =>
    simp only [splitSp]
    split
    · simp
    · cases h : splitSp cs <;> simp

theorem joinSp_pair (a b : PyStr) : joinSp [a, b] = a ++ ' ' :: b := rfl

theorem joinSp_splitSp (s : PyStr) : joinSp (splitSp s) = s := by
  induction s with
  | nil => rfl
  | cons c cs ih =>
    simp only [splitSp]
    by_cases hc : c = ' '
    · rw [if_pos hc]
      obtain ⟨t, ts, hts⟩ := List.exists_cons_of_ne_nil (splitSp_ne_nil cs)
      rw [hts]
      rw [hts] at ih
      simp only [joinSp, hc]
      cases ts <;> simp_all [joinSp]
    · rw [if_neg hc]
      cases hts : splitSp cs with
      | nil => exact absurd hts (splitSp_ne_nil cs)
      | cons t ts =>
        rw [hts] at ih
        cases ts with
        | nil => simpa [joinSp] using congrArg (c :: ·) ih
        | cons u us => simpa [joinSp] using congrArg (c :: ·) ih

theorem splitSp_pair_eq {s f l : PyStr} (h : splitSp s = [f, l]) :
    s = f ++ ' ' :: l := by
  have := joinSp_splitSp s
  rw [h, joinSp_pair] at this
  exact this.symm

/-! ## Bounds for the similarity scores -/

theorem indelSim_nonneg (a b : PyStr) : 0 ≤ indelSim a b := by
  simp only [indelSim]
  split
  · norm_num
  · rename_i h
    have hs : 0 < ((a.length + b.length : ℕ) : ℚ) := by
      exact_mod_cast Nat.pos_of_ne_zero h
    have hd : ((indelDist a b : ℕ) : ℚ) ≤ ((a.length + b.length : ℕ) : ℚ) := by
      exact_mod_cast Nat.sub_le _ _
    have hdiv : ((indelDist a b : ℕ) : ℚ) / ((a.length + b.length : ℕ) : ℚ) ≤ 1 :=
      (div_le_one hs).mpr hd
    push_cast at hdiv ⊢
    linarith

theorem indelSim_le_100 (a b : PyStr) : indelSim a b ≤ 100 := by
  simp only [indelSim]
  split
  · norm_num
  · rename_i h
    have hs : 0 < ((a.length + b.length : ℕ) : ℚ) := by
      exact_mod_cast Nat.pos_of_ne_zero h
    have hd : 0 ≤ ((indelDist a b : ℕ) : ℚ) := by positivity
    have hdiv : 0 ≤ ((indelDist a b : ℕ) : ℚ) / ((a.length + b.length : ℕ) : ℚ) := by
      positivity
    push_cast at hdiv ⊢
    linarith

theorem tokenSetScore_nonneg (a b : PyStr) : 0 ≤ tokenSetScore a b := by
  simp only [tokenSetScore]
  split
  · norm_num
  · split
    · norm_num
    · exact le_trans (indelSim_nonneg _ _) (le_max_of_le_left (le_max_left _ _))

theorem tokenSetScore_le_100 (a b : PyStr) : tokenSetScore a b ≤ 100 := by
  simp only [tokenSetScore]
  split
  · norm_num
  · split
    · norm_num
    · exact max_le (max_le (indelSim_le_100 _ _) (indelSim_le_100 _ _))
        (indelSim_le_100 _ _)

theorem tokenSetScore_nil_left (b : PyStr) : tokenSetScore [] b = 0 := rfl

/-! ## Lemmas about `pyRound` -/

theorem pyRound_nonneg {q : ℚ} (h : 0 ≤ q) : 0 ≤ pyRound q := by
  have hf : 0 ≤ ⌊q⌋ := Int.floor_nonneg.mpr h
  simp only [pyRound]
  split_ifs <;> omega

theorem pyRound_le_100 {q : ℚ} (h : q ≤ 100) : pyRound q ≤ 100 := by
  have hf : ⌊q⌋ ≤ 100 := by
    have : ⌊q⌋ ≤ ⌊(100 : ℚ)⌋ := Int.floor_le_floor h
    simpa using this
  simp only [pyRound]
  split_ifs with h1 h2 h3
  · exact hf
  all_goals {
    have hq : (1 : ℚ)/2 ≤ q - ⌊q⌋ := not_lt.mp h1
    have h100 : (⌊q⌋ : ℚ) < 100 := by linarith
    have : ⌊q⌋ < 100 := by exact_mod_cast h100
    omega }

theorem pyRound_zero : pyRound 0 = 0 := by
  norm_num [pyRound]

theorem pyRound_hundred : pyRound 100 = 100 := by
  norm_num [pyRound]

theorem insertSorted_ne_nil (x : PyStr) (l : List PyStr) :
    insertSorted x l ≠ [] := by
  cases l with
  | nil => simp [insertSorted]
  | cons y ys => simp only [insertSorted]; split <;> simp

theorem sortStrs_ne_nil {l : List PyStr} (h : l ≠ []) : sortStrs l ≠ [] := by
  cases l with
  | nil => exact absurd rfl h
  | cons x xs => exact insertSorted_ne_nil x (sortStrs xs)

/-- Scoring a string against itself yields 100 as soon as its processed form
has at least one token: the token sets coincide, so the containment branch of
`token_set_ratio` fires. -/
theorem tokenSetScore_self {s : PyStr}
    (h : (pyWords (fullProcess s)).dedup ≠ []) : tokenSetScore s s = 100 := by
  simp only [tokenSetScore]
  have hfilter_self : (pyWords (fullProcess s)).dedup.filter
      (fun t => decide (t ∈ (pyWords (fullProcess s)).dedup)) =
      (pyWords (fullProcess s)).dedup := by
    apply List.filter_eq_self.mpr
    intro a ha
    simpa using ha
  have hfilter_nil : (pyWords (fullProcess s)).dedup.filter
      (fun t => decide (t ∉ (pyWords (fullProcess s)).dedup)) = [] := by
    apply List.filter_eq_nil_iff.mpr
    intro a ha
    simpa using ha
  rw [if_neg (by simpa [List.isEmpty_iff] using h)]
  rw [hfilter_self, hfilter_nil]
  rw [if_pos]
  simp [List.isEmpty_iff, sortStrs, sortStrs_ne_nil h]

/-! ## The `extractOne` scan -/

/-- Main invariant of the `extractOne` scan: a `some (b, s)` result carries
the score of `b`, reaches the cutoff, comes from the list (or was the
accumulator), dominates every score in the list and the accumulator; a `none`
result means the accumulator was empty and every score is below the cutoff. -/
theorem extractOneAux_spec (f : PyStr → ℚ) (cutoff : ℚ) :
    ∀ (l : List PyStr) (acc : Option (PyStr × ℚ)),
      (∀ p : PyStr × ℚ, acc = some p → p.2 = f p.1 ∧ cutoff ≤ p.2) →
      (extractOneAux f cutoff l acc = none → acc = none ∧ ∀ c ∈ l, f c < cutoff) ∧
      (∀ b s, extractOneAux f cutoff l acc = some (b, s) →
        s = f b ∧ cutoff ≤ s ∧ (b ∈ l ∨ acc = some (b, s)) ∧
        (∀ c ∈ l, f c ≤ s) ∧ (∀ p : PyStr × ℚ, acc = some p → p.2 ≤ s)) := by
  intro l
  induction l with
  | nil =>
    intro acc hacc
    constructor
    · intro h
      exact ⟨h, by simp⟩
    · intro b s h
      simp only [extractOneAux] at h
      obtain ⟨h1, h2⟩ := hacc (b, s) h
      refine ⟨h1, h2, Or.inr h, by simp, ?_⟩
      intro p hp
      rw [hp] at h
      cases h
      exact le_refl _
  | cons c cs ih =>
    intro acc hacc
    cases acc with
    | none =>
      simp only [extractOneAux]
      by_cases hc : cutoff ≤ f c
      · rw [if_pos hc]
        have H := ih (some (c, f c))
          (by intro p hp; injection hp with hp; subst hp; exact ⟨rfl, hc⟩)
        constructor
        · intro h
          exact absurd (H.1 h).1 (by simp)
        · intro b s h
          obtain ⟨h1, h2, h3, h4, h5⟩ := H.2 b s h
          refine ⟨h1, h2, ?_, ?_, by simp⟩
          · rcases h3 with h3 | h3
            · exact Or.inl (List.mem_cons_of_mem _ h3)
            · injection h3 with h3
              cases h3
              exact Or.inl (List.mem_cons_self _ _)
          · intro x hx
            rcases List.mem_cons.mp hx with rfl | hx
            · exact h5 (x, f x) rfl
            · exact h4 x hx
      · rw [if_neg hc]
        have H := ih none (by rintro p ⟨⟩)
        constructor
        · intro h
          obtain ⟨-, h2⟩ := H.1 h
          refine ⟨by trivial, fun x hx => ?_⟩
          rcases List.mem_cons.mp hx with rfl | hx
          · exact lt_of_not_le hc
          · exact h2 x hx
        · intro b s h
          obtain ⟨h1, h2, h3, h4, h5⟩ := H.2 b s h
          refine ⟨h1, h2, ?_, ?_, by rintro p ⟨⟩⟩
          · rcases h3 with h3 | h3
            · exact Or.inl (List.mem_cons_of_mem _ h3)
            · cases h3
          · intro x hx
            rcases List.mem_cons.mp hx with rfl | hx
            · exact le_trans (le_of_lt (lt_of_not_le hc)) h2
            · exact h4 x hx
    | some p =>
      obtain ⟨b0, s0⟩ := p
      obtain ⟨hb0, hc0⟩ := hacc (b0, s0) rfl
      simp only [extractOneAux]
      by_cases hlt : s0 < f c
      · rw [if_pos hlt]
        have H := ih (some (c, f c))
          (by intro p hp; injection hp with hp; subst hp
              exact ⟨rfl, le_trans hc0 (le_of_lt hlt)⟩)
        constructor
        · intro h
          exact absurd (H.1 h).1 (by simp)
        · intro b s h
          obtain ⟨h1, h2, h3, h4, h5⟩ := H.2 b s h
          have hfc : f c ≤ s := h5 (c, f c) rfl
          refine ⟨h1, h2, ?_, ?_, ?_⟩
          · rcases h3 with h3 | h3
            · exact Or.inl (List.mem_cons_of_mem _ h3)
            · injection h3 with h3
              cases h3
              exact Or.inl (List.mem_cons_self _ _)
          · intro x hx
            rcases List.mem_cons.mp hx with rfl | hx
            · exact hfc
            · exact h4 x hx
          · intro p hp
            injection hp with hp
            subst hp
            exact le_trans (le_of_lt hlt) hfc
      · rw [if_neg hlt]
        have H := ih (some (b0, s0))
          (by intro p hp; injection hp with hp; subst hp; exact ⟨hb0, hc0⟩)
        constructor
        · intro h
          exact absurd (H.1 h).1 (by simp)
        · intro b s h
          obtain ⟨h1, h2, h3, h4, h5⟩ := H.2 b s h
          have hs0 : s0 ≤ s := h5 (b0, s0) rfl
          refine ⟨h1, h2, ?_, ?_, ?_⟩
          · rcases h3 with h3 | h3
            · exact Or.inl (List.mem_cons_of_mem _ h3)
            · exact Or.inr h3
          · intro x hx
            rcases List.mem_cons.mp hx with rfl | hx
            · exact le_trans (not_lt.mp hlt) hs0
            · exact h4 x hx
          · intro p hp
            injection hp with hp
            subst hp
            exact hs0

theorem bestScoreQ_cons (q c : PyStr) (cs : List PyStr) :
    bestScoreQ q (c :: cs) = max (tokenSetScore q c) (bestScoreQ q cs) := rfl

theorem le_bestScoreQ {q c : PyStr} {choices : List PyStr} (h : c ∈ choices) :
    tokenSetScore q c ≤ bestScoreQ q choices := by
  induction choices with
  | nil => cases h
  | cons x xs ih =>
    rw [bestScoreQ_cons]
    rcases List.mem_cons.mp h with rfl | h
    · exact le_max_left _ _
    · exact le_trans (ih h) (le_max_right _ _)

theorem bestScoreQ_cases (q : PyStr) (choices : List PyStr) :
    bestScoreQ q choices = 0 ∨
      ∃ c ∈ choices, bestScoreQ q choices = tokenSetScore q c := by
  induction choices with
  | nil => exact Or.inl rfl
  | cons x xs ih =>
    rw [bestScoreQ_cons]
    rcases max_choice (tokenSetScore q x) (bestScoreQ q xs) with h | h
    · exact Or.inr ⟨x, List.mem_cons_self _ _, h⟩
    · rcases ih with h0 | ⟨c, hc, hcs⟩
      · exact Or.inl (h.trans h0)
      · exact Or.inr ⟨c, List.mem_cons_of_mem _ hc, h.trans hcs⟩

theorem bestScoreQ_nonneg (q : PyStr) (choices : List PyStr) :
    0 ≤ bestScoreQ q choices := by
  rcases bestScoreQ_cases q choices with h | ⟨c, -, h⟩
  · rw [h]
  · rw [h]
    exact tokenSetScore_nonneg q c

theorem bestScoreQ_le_100 (q : PyStr) (choices : List PyStr) :
    bestScoreQ q choices ≤ 100 := by
  rcases bestScoreQ_cases q choices with h | ⟨c, -, h⟩
  · rw [h]
    norm_num
  · rw [h]
    exact tokenSetScore_le_100 q c

/-- A `some` result of `extractOne` is a member of the choice list carrying
its own score, that score reaches the cutoff and is the maximum score. -/
theorem extractOneModel_some {q b : PyStr} {choices : List PyStr} {cutoff s : ℚ}
    (h : extractOneModel q choices cutoff = some (b, s)) :
    s = tokenSetScore q b ∧ cutoff ≤ s ∧ b ∈ choices ∧
      ∀ c ∈ choices, tokenSetScore q c ≤ s := by
  have H := (extractOneAux_spec (fun c => tokenSetScore q c) cutoff choices none
    (by rintro p ⟨⟩)).2 b s h
  obtain ⟨h1, h2, h3, h4, -⟩ := H
  rcases h3 with h3 | h3
  · exact ⟨h1, h2, h3, h4⟩
  · cases h3

/-- A `none` result of `extractOne` means every choice scores strictly below
the cutoff. -/
theorem extractOneModel_none {q : PyStr} {choices : List PyStr} {cutoff : ℚ}
    (h : extractOneModel q choices cutoff = none) :
    ∀ c ∈ choices, tokenSetScore q c < cutoff :=
  ((extractOneAux_spec (fun c => tokenSetScore q c) cutoff choices none
    (by rintro p ⟨⟩)).1 h).2

/-- `extractOne` finds the maximum score as soon as some choice reaches the
cutoff (in particular whenever the cutoff is at most the best score of a
nonempty list, scores being nonnegative). -/
theorem extractOneModel_reach {q : PyStr} {choices : List PyStr} {cutoff : ℚ}
    (hne : choices ≠ []) (h : cutoff ≤ bestScoreQ q choices) :
    ∃ b, extractOneModel q choices cutoff = some (b, bestScoreQ q choices) := by
  cases heq : extractOneModel q choices cutoff with
  | none =>
    exfalso
    have hall := extractOneModel_none heq
    rcases bestScoreQ_cases q choices with h0 | ⟨c, hc, hcs⟩
    · obtain ⟨c, cs, rfl⟩ := List.exists_cons_of_ne_nil hne
      have h1 := hall c (List.mem_cons_self _ _)
      have h2 := tokenSetScore_nonneg q c
      rw [h0] at h
      linarith
    · have h1 := hall c hc
      rw [hcs] at h
      linarith
  | some p =>
    obtain ⟨b, s⟩ := p
    obtain ⟨h1, h2, h3, h4⟩ := extractOneModel_some heq
    refine ⟨b, ?_⟩
    have hle : s ≤ bestScoreQ q choices := h1 ▸ le_bestScoreQ h3
    have hge : bestScoreQ q choices ≤ s := by
      rcases bestScoreQ_cases q choices with h0 | ⟨c, hc, hcs⟩
      · rw [h0, h1]
        exact tokenSetScore_nonneg q b
      · rw [hcs]
        exact h4 c hc
    rw [le_antisymm hle hge]

/-- For a nonempty choice list `get_best_score` succeeds and returns the
rounded maximum score, which lies in `[0, 100]`. -/
theorem get_best_score_ok {q : PyStr} {choices : List PyStr} (hne : choices ≠ []) :
    get_best_score q choices = Except.ok (pyRound (bestScoreQ q choices)) ∧
      0 ≤ pyRound (bestScoreQ q choices) ∧ pyRound (bestScoreQ q choices) ≤ 100 := by
  obtain ⟨b, hb⟩ := extractOneModel_reach hne (bestScoreQ_nonneg q choices)
  refine ⟨?_, pyRound_nonneg (bestScoreQ_nonneg q choices),
    pyRound_le_100 (bestScoreQ_le_100 q choices)⟩
  simp [get_best_score, hb]

/-- Scoring the empty string (the first "token" of the blank placeholder)
always yields 0: every token-set score of an empty query is 0. -/
theorem get_best_score_nil_query {choices : List PyStr} (hne : choices ≠ []) :
    get_best_score [] choices = Except.ok 0 := by
  have hbest : bestScoreQ [] choices = 0 := by
    rcases bestScoreQ_cases [] choices with h | ⟨c, -, h⟩
    · exact h
    · rw [h, tokenSetScore_nil_left]
  have := (get_best_score_ok (q := []) hne).1
  rw [hbest, pyRound_zero] at this
  exact this

/-! ## Lemmas about the pipeline model -/

theorem pyIndex_zero {l : List PyStr} {x : PyStr} (h : l = x :: l.tail) :
    pyIndex l 0 = Except.ok x := by
  rw [h]
  simp [pyIndex]

theorem pyIndex_error_iff {l : List PyStr} {i : Nat} :
    pyIndex l i = Except.error "IndexError: list index out of range" ↔
      l.length ≤ i := by
  simp only [pyIndex]
  cases hx : l[i]? with
  | none =>
    simp only [List.getElem?_eq_none_iff] at hx
    simp [hx]
  | some v =>
    have : i < l.length := by
      by_contra hcon
      rw [List.getElem?_eq_none (le_of_not_lt hcon)] at hx
      cases hx
    simp [this]

theorem filterMatch_nil {cs : List Customer} {e : Option PyStr}
    (h : ∀ c ∈ cs, e ≠ some c.customer_name) :
    cs.filter (fun c => decide (e = some c.customer_name)) = [] := by
  apply List.filter_eq_nil_iff.mpr
  intro c hc
  simpa using h c hc

theorem filterMatch_length_one {cs : List Customer} {n : PyStr}
    (hnd : (cs.map (fun c => c.customer_name)).Nodup)
    (hmem : n ∈ cs.map (fun c => c.customer_name)) :
    (cs.filter (fun c => decide (some n = some c.customer_name))).length = 1 := by
  induction cs with
  | nil => simp at hmem
  | cons c cs ih =>
    rw [List.map_cons, List.nodup_cons] at hnd
    obtain ⟨hnot, hnd'⟩ := hnd
    rcases List.mem_cons.mp hmem with heq | hmem'
    · have heqn : n = c.customer_name := heq
      rw [List.filter_cons_of_pos (by simp [heqn])]
      have hrest : cs.filter (fun c => decide (some n = some c.customer_name)) = [] := by
        apply filterMatch_nil
        intro c' hc' hcon
        apply hnot
        injection hcon with hcon
        rw [← heqn, hcon]
        exact List.mem_map_of_mem _ hc'
      rw [hrest]
      rfl
    · have hne : n ≠ c.customer_name := by
        intro hcon
        exact hnot (hcon ▸ hmem')
      rw [List.filter_cons_of_neg (by simp [hne])]
      exact ih hnd' hmem'

/-- `extract_best` only ever returns one of its choices. -/
theorem extract_best_mem {q b : PyStr} {choices : List PyStr} {thr : ℚ}
    (h : extract_best q choices thr = some b) : b ∈ choices := by
  simp only [extract_best, Option.map_eq_some'] at h
  obtain ⟨⟨b', s⟩, hb, rfl⟩ := h
  exact (extractOneModel_some hb).2.2.1

/-- An unmatched transaction (no fuzzy candidate cleared the threshold)
contributes exactly one merged row, whose customer side is missing. -/
theorem rowsForTransaction_unmatched {cs : List Customer} {t : Transaction}
    (he : extract_best t.customer_name (cs.map (fun c => c.customer_name)) 75 = none) :
    rowsForTransaction cs t =
      [{ transaction_id := t.transaction_id, amount := t.amount,
         transaction_date := t.transaction_date, customer_id_1 := t.customer_id,
         email_1 := t.email, customer_name_1 := t.customer_name,
         customer_id_2 := none, email_2 := none, customer_name_2 := none }] := by
  simp only [rowsForTransaction, he]
  rw [filterMatch_nil (by intro c hc; simp)]
  rfl

/-- With pairwise distinct canonical customer names, every transaction
contributes exactly one merged row. -/
theorem rowsForTransaction_length {cs : List Customer} {t : Transaction}
    (hnd : (cs.map (fun c => c.customer_name)).Nodup) :
    (rowsForTransaction cs t).length = 1 := by
  cases he : extract_best t.customer_name (cs.map (fun c => c.customer_name)) 75 with
  | none => rw [rowsForTransaction_unmatched he]; rfl
  | some n =>
    have hmem : n ∈ cs.map (fun c => c.customer_name) := extract_best_mem he
    have hlen := filterMatch_length_one hnd hmem
    have hlen' : (cs.filter (fun c => decide (n = c.customer_name))).length = 1 := by
      simpa using hlen
    simp only [rowsForTransaction, he]
    rw [if_neg (by simp [List.isEmpty_iff, ← List.length_eq_zero, hlen'])]
    rw [List.length_map]
    simpa using hlen'

theorem mergedRows_cons (t : Transaction) (ts : List Transaction)
    (cs : List Customer) :
    mergedRows (t :: ts) cs = rowsForTransaction cs t ++ mergedRows ts cs := by
  simp [mergedRows]

theorem mergedRows_length_of_nodup {txs : List Transaction} {cs : List Customer}
    (hnd : (cs.map (fun c => c.customer_name)).Nodup) :
    (mergedRows txs cs).length = txs.length := by
  induction txs with
  | nil => rfl
  | cons t ts ih =>
    rw [mergedRows_cons, List.length_append, ih, rowsForTransaction_length hnd,
      List.length_cons, Nat.add_comm]

theorem splitSp_blank : splitSp [' '] = [[], []] := rfl

theorem bindOk {α β : Type} (a : α) (f : α → Except String β) :
    (Except.ok a : Except String α) >>= f = f a := rfl

theorem pureOk {α : Type} (a : α) :
    (pure a : Except String α) = Except.ok a := rfl

/-- Scoring a filled row whose customer side carries the blank placeholder:
the transaction-side tokens get their real (nonnegative) scores, the
placeholder's empty tokens score 0. -/
theorem scoreRow_blank {firstNames lastNames : List PyStr} {r : FilledRow}
    {p0 p1 : PyStr} {rest : List PyStr}
    (hf : firstNames ≠ []) (hl : lastNames ≠ [])
    (h1 : splitSp r.customer_name_1 = p0 :: p1 :: rest)
    (h2 : r.customer_name_2 = [' ']) :
    scoreRow firstNames lastNames r = Except.ok
      { transaction_id := r.transaction_id, amount := r.amount,
        transaction_date := r.transaction_date,
        customer_id_1 := r.customer_id_1, email_1 := r.email_1,
        customer_name_1 := r.customer_name_1,
        customer_id_2 := r.customer_id_2, email_2 := r.email_2,
        customer_name_2 := r.customer_name_2,
        score_1 := pyRound (bestScoreQ p0 firstNames), score_2 := 0,
        score_last_1 := pyRound (bestScoreQ p1 lastNames), score_last_2 := 0 } := by
  have e1 : pyIndex (splitSp r.customer_name_1) 0 = Except.ok p0 := by
    rw [h1]; rfl
  have e2 : pyIndex (splitSp r.customer_name_2) 0 = Except.ok [] := by
    rw [h2, splitSp_blank]; rfl
  have e3 : pyIndex (splitSp r.customer_name_1) 1 = Except.ok p1 := by
    rw [h1]; simp [pyIndex]
  have e4 : pyIndex (splitSp r.customer_name_2) 1 = Except.ok [] := by
    rw [h2, splitSp_blank]; simp [pyIndex]
  have g1 := (get_best_score_ok (q := p0) hf).1
  have g2 := get_best_score_nil_query hf
  have g3 := (get_best_score_ok (q := p1) hl).1
  have g4 := get_best_score_nil_query hl
  simp only [scoreRow, e1, e2, e3, e4, g1, g2, g3, g4, bindOk, pureOk]

/-- When variant 2 scores 0 on both tokens and variant 1 scores are
nonnegative, `select_best_full_name` picks both tokens from variant 1. -/
theorem select_best_full_name_blank {r : ScoredRow} {p0 p1 : PyStr}
    {rest : List PyStr}
    (h1 : splitSp r.customer_name_1 = p0 :: p1 :: rest)
    (hz1 : 0 ≤ r.score_1) (hz2 : r.score_2 = 0)
    (hz3 : 0 ≤ r.score_last_1) (hz4 : r.score_last_2 = 0) :
    select_best_full_name r = Except.ok (p0 ++ ' ' :: p1) := by
  have e0 : pyIndex (splitSp r.customer_name_1) 0 = Except.ok p0 := by
    rw [h1]; simp [pyIndex]
  have e1 : pyIndex (splitSp r.customer_name_1) 1 = Except.ok p1 := by
    rw [h1]; simp [pyIndex]
  simp only [select_best_full_name]
  split_ifs <;>
    first
      | (exfalso; omega)
      | simp [e0, e1, bindOk, pureOk]

/-- End-to-end fate of an unmatched transaction inside `main`: one output
row whose customer-side fields are the blank placeholder and whose final
`customer_name` is rebuilt from the transaction's own first two tokens. -/
theorem resolveTransaction_unmatched {firstNames lastNames : List PyStr}
    {cs : List Customer} {t : Transaction} {p0 p1 : PyStr} {rest : List PyStr}
    (hf : firstNames ≠ []) (hl : lastNames ≠ [])
    (he : extract_best t.customer_name (cs.map (fun c => c.customer_name)) 75 = none)
    (hs : splitSp t.customer_name = p0 :: p1 :: rest) :
    resolveTransaction firstNames lastNames cs t =
      Except.ok
        [{ transaction_id := t.transaction_id, amount := t.amount,
           transaction_date := t.transaction_date,
           customer_id_1 := t.customer_id, email_1 := t.email,
           customer_id_2 := [' '], email_2 := [' '],
           customer_name := p0 ++ ' ' :: p1 }] := by
  rw [resolveTransaction, rowsForTransaction_unmatched he]
  have hfill : fillRow
      { transaction_id := t.transaction_id, amount := t.amount,
        transaction_date := t.transaction_date, customer_id_1 := t.customer_id,
        email_1 := t.email, customer_name_1 := t.customer_name,
        customer_id_2 := none, email_2 := none, customer_name_2 := none } =
      { transaction_id := t.transaction_id, amount := t.amount,
        transaction_date := t.transaction_date, customer_id_1 := t.customer_id,
        email_1 := t.email, customer_name_1 := t.customer_name,
        customer_id_2 := [' '], email_2 := [' '], customer_name_2 := [' '] } := rfl
  have hscore := scoreRow_blank (r :=
      { transaction_id := t.transaction_id, amount := t.amount,
        transaction_date := t.transaction_date, customer_id_1 := t.customer_id,
        email_1 := t.email, customer_name_1 := t.customer_name,
        customer_id_2 := [' '], email_2 := [' '], customer_name_2 := [' '] })
    hf hl hs rfl
  have hsel := select_best_full_name_blank (r :=
      { transaction_id := t.transaction_id, amount := t.amount,
        transaction_date := t.transaction_date, customer_id_1 := t.customer_id,
        email_1 := t.email, customer_name_1 := t.customer_name,
        customer_id_2 := [' '], email_2 := [' '], customer_name_2 := [' '],
        score_1 := pyRound (bestScoreQ p0 firstNames), score_2 := 0,
        score_last_1 := pyRound (bestScoreQ p1 lastNames), score_last_2 := 0 })
    hs (pyRound_nonneg (bestScoreQ_nonneg p0 firstNames)) rfl
    (pyRound_nonneg (bestScoreQ_nonneg p1 lastNames)) rfl
  simp only [List.mapM_cons, List.mapM_nil, hfill, hscore, bindOk, pureOk,
    resolveRow, hsel]

theorem pyIndex_ok_lt {l : List PyStr} {i : Nat} {v : PyStr}
    (h : pyIndex l i = Except.ok v) : i < l.length := by
  simp only [pyIndex] at h
  cases hx : l[i]? with
  | none => rw [hx] at h; cases h
  | some w =>
    by_contra hcon
    rw [List.getElem?_eq_none (le_of_not_lt hcon)] at hx
    cases hx

/-! ## The claims -/

/-- C1: for every query, every nonempty candidate list and every threshold,
`extract_best` returns a candidate attaining the best token-set score when
that best score is at least the threshold (inclusive acceptance), and `none`
when the best score is below the threshold. -/
theorem claim_C1_extract_best_threshold (q : PyStr) (choices : List PyStr)
    (thr : ℚ) (hne : choices ≠ []) :
    (thr ≤ bestScoreQ q choices →
      ∃ b, extract_best q choices thr = some b ∧
        tokenSetScore q b = bestScoreQ q choices) ∧
    (bestScoreQ q choices < thr → extract_best q choices thr = none) := by
  constructor
  · intro h
    obtain ⟨b, hb⟩ := extractOneModel_reach hne h
    exact ⟨b, by simp [extract_best, hb], ((extractOneModel_some hb).1).symm⟩
  · intro h
    cases heq : extractOneModel q choices thr with
    | none => simp [extract_best, heq]
    | some p =>
      obtain ⟨b, s⟩ := p
      obtain ⟨h1, h2, h3, -⟩ := extractOneModel_some heq
      have hlt : tokenSetScore q b < thr := lt_of_le_of_lt (le_bestScoreQ h3) h
      rw [h1] at h2
      linarith

theorem claim_C1_witness :
    ∃ b, extract_best ("ab".toList) ["ab".toList, "cd".toList] 75 = some b ∧
      tokenSetScore ("ab".toList) b =
        bestScoreQ ("ab".toList) ["ab".toList, "cd".toList] :=
  (claim_C1_extract_best_threshold ("ab".toList) ["ab".toList, "cd".toList] 75
    (by decide)).1 (of_decide_eq_true (by with_unfolding_all rfl))

/-- C2 fails as stated: a transaction whose resolved name matches two
customer rows with an identical canonical name fans out into two merged rows,
so the left join of `main` is not cardinality-preserving on the transaction
side.  Here one transaction produces two rows. -/
theorem claim_C2_counterexample :
    (mergedRows
      [{ transaction_id := "1".toList, amount := "10".toList,
         transaction_date := "d1".toList, customer_id := "7".toList,
         email := "a@x".toList, customer_name := "ab".toList }]
      [{ customer_id := "8".toList, email := "b@y".toList,
         customer_name := "ab".toList },
       { customer_id := "9".toList, email := "c@z".toList,
         customer_name := "ab".toList }]).length = 2 ∧ (2 : Nat) ≠ 1 := by
  constructor
  · with_unfolding_all rfl
  · decide

/-- C2 amended: the left join is cardinality-preserving on the transaction
side provided the canonical customer names are pairwise distinct; with
duplicated canonical names the join fans out (one row per duplicate). -/
theorem claim_C2_join_cardinality (txs : List Transaction) (cs : List Customer)
    (hnd : (cs.map (fun c => c.customer_name)).Nodup) :
    (mergedRows txs cs).length = txs.length :=
  mergedRows_length_of_nodup hnd

theorem claim_C2_witness :
    ((([{ customer_id := "8".toList, email := "b@y".toList,
          customer_name := "ab".toList },
        { customer_id := "9".toList, email := "c@z".toList,
          customer_name := "cd".toList }] : List Customer).map
      (fun c => c.customer_name)).Nodup) ∧
    (mergedRows
      [{ transaction_id := "1".toList, amount := "10".toList,
         transaction_date := "d1".toList, customer_id := "7".toList,
         email := "a@x".toList, customer_name := "ab".toList }]
      [{ customer_id := "8".toList, email := "b@y".toList,
         customer_name := "ab".toList },
       { customer_id := "9".toList, email := "c@z".toList,
         customer_name := "cd".toList }]).length = 1 :=
  ⟨by decide, claim_C2_join_cardinality _ _ (by decide)⟩

/-- C3 fails as stated for `extract_best`: on an empty candidate list it
silently returns the sentinel `None` (the underlying `extractOne` returns
`None` and the `if result is not None` guard turns it into a normal `None`
return), rather than raising. -/
theorem claim_C3_counterexample :
    extract_best ("ab".toList) [] 75 = none := rfl

/-- C3 amended: on an empty candidate list `get_best_score` does fail loudly
(unpacking the `None` returned by `extractOne` raises a `TypeError`), but
`extract_best` silently returns `None` for every query and threshold. -/
theorem claim_C3_empty_candidates (q : PyStr) (thr : ℚ) :
    get_best_score q [] =
      Except.error "TypeError: cannot unpack non-iterable NoneType object" ∧
    extract_best q [] thr = none :=
  ⟨rfl, rfl⟩

/-- C4: the claim matches the `CREATE TABLE` schema of the same file (lines
150-159) but not the dataframe `main` actually uploads: the merge suffixes
`_1`/`_2` on `customer_id` and `email` survive to the final column list, and
no plain `CUSTOMER_ID`/`EMAIL` column exists. -/
theorem claim_C4_final_columns :
    finalColumns = ["TRANSACTION_ID", "AMOUNT", "TRANSACTION_DATE",
      "CUSTOMER_ID_1", "EMAIL_1", "CUSTOMER_ID_2", "EMAIL_2",
      "CUSTOMER_NAME"] ∧
    finalColumns ≠ ["TRANSACTION_ID", "AMOUNT", "TRANSACTION_DATE",
      "CUSTOMER_ID", "EMAIL", "CUSTOMER_NAME"] := by
  have h1 : finalColumns = ["TRANSACTION_ID", "AMOUNT", "TRANSACTION_DATE",
      "CUSTOMER_ID_1", "EMAIL_1", "CUSTOMER_ID_2", "EMAIL_2",
      "CUSTOMER_NAME"] := rfl
  refine ⟨h1, ?_⟩
  rw [h1]
  decide

/-- C5: on an exact tie of both the first-name scores and the last-name
scores, the Disambiguator reproduces `customer_name_1` verbatim.  A name of
the nominal form "First Last" splits into exactly two pieces, and rejoining
the two selected pieces with a single space restores the original string. -/
theorem claim_C5_tie_prefers_name_1 (r : ScoredRow) (f l : PyStr)
    (h1 : r.score_1 = r.score_2) (h2 : r.score_last_1 = r.score_last_2)
    (h3 : splitSp r.customer_name_1 = [f, l]) :
    select_best_full_name r = Except.ok r.customer_name_1 := by
  have e0 : pyIndex (splitSp r.customer_name_1) 0 = Except.ok f := by
    rw [h3]; simp [pyIndex]
  have e1 : pyIndex (splitSp r.customer_name_1) 1 = Except.ok l := by
    rw [h3]; simp [pyIndex]
  have hname : r.customer_name_1 = f ++ ' ' :: l := splitSp_pair_eq h3
  simp only [select_best_full_name]
  split_ifs <;>
    first
      | (exfalso; omega)
      | (simp only [e0, bindOk, e1, pureOk]; rw [hname])

theorem claim_C5_witness :
    ((0 : ℤ) = 0 ∧ (7 : ℤ) = 7 ∧
      splitSp ("ann lee".toList) = ["ann".toList, "lee".toList]) ∧
    select_best_full_name
      { transaction_id := [], amount := [], transaction_date := [],
        customer_id_1 := [], email_1 := [], customer_name_1 := "ann lee".toList,
        customer_id_2 := [], email_2 := [], customer_name_2 := "bo cy".toList,
        score_1 := 0, score_2 := 0, score_last_1 := 7, score_last_2 := 7 } =
      Except.ok ("ann lee".toList) :=
  ⟨⟨rfl, rfl, rfl⟩,
   claim_C5_tie_prefers_name_1
     { transaction_id := [], amount := [], transaction_date := [],
       customer_id_1 := [], email_1 := [], customer_name_1 := "ann lee".toList,
       customer_id_2 := [], email_2 := [], customer_name_2 := "bo cy".toList,
       score_1 := 0, score_2 := 0, score_last_1 := 7, score_last_2 := 7 }
     ("ann".toList) ("lee".toList) rfl rfl rfl⟩

/-- C6: the two winning tokens are chosen independently; in particular when
variant 1 wins the first-name comparison strictly and variant 2 wins the
last-name comparison strictly, the output combines variant 1's first token
with variant 2's second token. -/
theorem claim_C6_mixed_provenance (r : ScoredRow) (f1 f2 l2 : PyStr)
    (r1 r2 : List PyStr)
    (h1 : splitSp r.customer_name_1 = f1 :: r1)
    (h2 : splitSp r.customer_name_2 = f2 :: l2 :: r2)
    (hs1 : r.score_1 > r.score_2) (hs2 : r.score_last_2 > r.score_last_1) :
    select_best_full_name r = Except.ok (f1 ++ ' ' :: l2) := by
  have e0 : pyIndex (splitSp r.customer_name_1) 0 = Except.ok f1 := by
    rw [h1]; simp [pyIndex]
  have e1 : pyIndex (splitSp r.customer_name_2) 1 = Except.ok l2 := by
    rw [h2]; simp [pyIndex]
  simp only [select_best_full_name]
  split_ifs <;>
    first
      | (exfalso; omega)
      | (simp [e0, e1, bindOk, pureOk])

theorem claim_C6_witness :
    (splitSp ("jon smyth".toList) = "jon".toList :: ["smyth".toList] ∧
      splitSp ("john smxth".toList) =
        "john".toList :: "smxth".toList :: ([] : List PyStr) ∧
      (80 : ℤ) > 70 ∧ (90 : ℤ) > 60) ∧
    select_best_full_name
      { transaction_id := [], amount := [], transaction_date := [],
        customer_id_1 := [], email_1 := [],
        customer_name_1 := "jon smyth".toList,
        customer_id_2 := [], email_2 := [],
        customer_name_2 := "john smxth".toList,
        score_1 := 80, score_2 := 70, score_last_1 := 60, score_last_2 := 90 } =
      Except.ok ("jon".toList ++ ' ' :: "smxth".toList) :=
  ⟨⟨rfl, rfl, by decide, by decide⟩,
   claim_C6_mixed_provenance
     { transaction_id := [], amount := [], transaction_date := [],
       customer_id_1 := [], email_1 := [],
       customer_name_1 := "jon smyth".toList,
       customer_id_2 := [], email_2 := [],
       customer_name_2 := "john smxth".toList,
       score_1 := 80, score_2 := 70, score_last_1 := 60, score_last_2 := 90 }
     ("jon".toList) ("john".toList) ("smxth".toList) ["smyth".toList] []
     rfl rfl (by decide) (by decide)⟩

/-- C7 fails in its second half as stated: scoring the empty string against a
list containing the empty string itself yields 0, not 100 — `token_set_ratio`
returns 0 whenever a processed operand has no tokens. -/
theorem claim_C7_counterexample :
    ([] : PyStr) ∈ [([] : PyStr)] ∧
    get_best_score [] [([] : PyStr)] = Except.ok 0 ∧
    (Except.ok (0 : ℤ) : Except String ℤ) ≠ Except.ok 100 := by
  refine ⟨by decide, by with_unfolding_all rfl, ?_⟩
  intro h
  injection h with h
  exact absurd h (by decide)

/-- C7 amended: for every nonempty candidate list the returned score lies in
`[0, 100]`; and scoring a string against a list containing itself returns 100
provided the processed query has at least one token (for a query processing
to the empty token set — such as the empty string — every score is 0). -/
theorem claim_C7_score_range (q : PyStr) (choices : List PyStr)
    (hne : choices ≠ []) :
    (∃ z, get_best_score q choices = Except.ok z ∧ 0 ≤ z ∧ z ≤ 100) ∧
    (q ∈ choices → (pyWords (fullProcess q)).dedup ≠ [] →
      get_best_score q choices = Except.ok 100) := by
  constructor
  · obtain ⟨h, h0, h100⟩ := get_best_score_ok (q := q) hne
    exact ⟨_, h, h0, h100⟩
  · intro hmem htok
    have hself : tokenSetScore q q = 100 := tokenSetScore_self htok
    have hbest : bestScoreQ q choices = 100 :=
      le_antisymm (bestScoreQ_le_100 _ _) (hself ▸ le_bestScoreQ hmem)
    have h := (get_best_score_ok (q := q) hne).1
    rw [hbest, pyRound_hundred] at h
    exact h

theorem claim_C7_witness :
    (∃ z, get_best_score ("ab".toList) ["ab".toList, "cd".toList] =
      Except.ok z ∧ 0 ≤ z ∧ z ≤ 100) ∧
    get_best_score ("ab".toList) ["ab".toList, "cd".toList] = Except.ok 100 :=
  ⟨(claim_C7_score_range ("ab".toList) ["ab".toList, "cd".toList]
      (by decide)).1,
   (claim_C7_score_range ("ab".toList) ["ab".toList, "cd".toList]
      (by decide)).2 (by decide) (by decide)⟩

theorem bindErr {β : Type} (e : String) (f : PyStr → Except String β) :
    (Except.error e : Except String PyStr) >>= f = Except.error e := rfl

theorem pyIndex_error_eq {l : List PyStr} {i : Nat} {e : String}
    (h : pyIndex l i = Except.error e) :
    e = "IndexError: list index out of range" := by
  simp only [pyIndex] at h
  cases hx : l[i]? with
  | none =>
    rw [hx] at h
    injection h with h
    exact h.symm
  | some v =>
    rw [hx] at h
    cases h

/-- C8 fails as stated: a row whose `customer_name_1` has fewer than two
space-separated tokens does not make the Disambiguator fail when the other
variant wins both comparisons — the malformed name is silently ignored and a
value is returned. -/
theorem claim_C8_counterexample :
    (splitSp ("Madonna".toList)).length < 2 ∧
    select_best_full_name
      { transaction_id := [], amount := [], transaction_date := [],
        customer_id_1 := [], email_1 := [], customer_name_1 := "Madonna".toList,
        customer_id_2 := [], email_2 := [], customer_name_2 := "John Smith".toList,
        score_1 := 0, score_2 := 10, score_last_1 := 0, score_last_2 := 10 } =
      Except.ok ("John Smith".toList) :=
  ⟨by decide, by with_unfolding_all rfl⟩

/-- C8 amended: `select_best_full_name` splits on single spaces and reads the
tokens at indices 0 and 1; index 0 never fails, so the call raises (an
`IndexError` from the token-index lookup, not a purpose-built error) exactly
when the name variant selected as the source of the last token has fewer
than two space-separated pieces.  A malformed name losing both comparisons
is silently ignored, and a name with more than two tokens is silently
truncated to its first two. -/
theorem claim_C8_malformed_failure (r : ScoredRow) :
    select_best_full_name r =
      Except.error "IndexError: list index out of range" ↔
    (splitSp (lastTokenSource r)).length < 2 := by
  obtain ⟨x, xs, hx⟩ :=
    List.exists_cons_of_ne_nil (splitSp_ne_nil r.customer_name_1)
  obtain ⟨x2, xs2, hx2⟩ :=
    List.exists_cons_of_ne_nil (splitSp_ne_nil r.customer_name_2)
  have e0 : pyIndex (splitSp r.customer_name_1) 0 = Except.ok x := by
    rw [hx]; simp [pyIndex]
  have e0b : pyIndex (splitSp r.customer_name_2) 0 = Except.ok x2 := by
    rw [hx2]; simp [pyIndex]
  simp only [select_best_full_name, lastTokenSource]
  split_ifs
  all_goals simp only [e0, e0b, bindOk]
  all_goals
    first
      | (cases hy : pyIndex (splitSp r.customer_name_1) 1 with
          | ok v =>
            have hlt := pyIndex_ok_lt hy
            simp [hy, bindOk, pureOk]
            omega
          | error e =>
            have hmsg := pyIndex_error_eq hy
            subst hmsg
            have hlen := pyIndex_error_iff.mp hy
            simp [hy, bindErr]
            omega)
      | (cases hy : pyIndex (splitSp r.customer_name_2) 1 with
          | ok v =>
            have hlt := pyIndex_ok_lt hy
            simp [hy, bindOk, pureOk]
            omega
          | error e =>
            have hmsg := pyIndex_error_eq hy
            subst hmsg
            have hlen := pyIndex_error_iff.mp hy
            simp [hy, bindErr]
            omega)

/-- C9: a transaction without a fuzzy match yields exactly one joined row,
and after `fillna(' ')` every customer-side value of that row is the
one-character blank string `" "` (not a null marker), so the later
whitespace split of `customer_name_2` cannot fail on an absent value. -/
theorem claim_C9_blank_placeholder (cs : List Customer) (t : Transaction)
    (he : extract_best t.customer_name (cs.map (fun c => c.customer_name)) 75 =
      none) :
    (rowsForTransaction cs t).map fillRow =
      [{ transaction_id := t.transaction_id, amount := t.amount,
         transaction_date := t.transaction_date, customer_id_1 := t.customer_id,
         email_1 := t.email, customer_name_1 := t.customer_name,
         customer_id_2 := [' '], email_2 := [' '],
         customer_name_2 := [' '] }] := by
  rw [rowsForTransaction_unmatched he]
  rfl

theorem claim_C9_witness :
    extract_best ("cd qq".toList)
      (([{ customer_id := "8".toList, email := "b@y".toList,
           customer_name := "ab".toList }] : List Customer).map
        (fun c => c.customer_name)) 75 = none ∧
    (rowsForTransaction
      [{ customer_id := "8".toList, email := "b@y".toList,
         customer_name := "ab".toList }]
      { transaction_id := "1".toList, amount := "10".toList,
        transaction_date := "d1".toList, customer_id := "7".toList,
        email := "a@x".toList, customer_name := "cd qq".toList }).map fillRow =
      [{ transaction_id := "1".toList, amount := "10".toList,
         transaction_date := "d1".toList, customer_id_1 := "7".toList,
         email_1 := "a@x".toList, customer_name_1 := "cd qq".toList,
         customer_id_2 := [' '], email_2 := [' '],
         customer_name_2 := [' '] }] :=
  ⟨by with_unfolding_all rfl,
   claim_C9_blank_placeholder
     [{ customer_id := "8".toList, email := "b@y".toList,
        customer_name := "ab".toList }]
     { transaction_id := "1".toList, amount := "10".toList,
       transaction_date := "d1".toList, customer_id := "7".toList,
       email := "a@x".toList, customer_name := "cd qq".toList }
     (by with_unfolding_all rfl)⟩

/-- C10: a transaction whose name matched no customer (customer side filled
with the blank `" "`) resolves — through the whole scoring and selection
pass of `main` — to a single output row whose final `customer_name` is the
transaction's own first token, a space, and the transaction's own second
token: the placeholder's empty tokens score 0, every score is nonnegative,
and ties prefer variant 1. -/
theorem claim_C10_unmatched_fallback {firstNames lastNames : List PyStr}
    {cs : List Customer} {t : Transaction} {p0 p1 : PyStr} {rest : List PyStr}
    (hf : firstNames ≠ []) (hl : lastNames ≠ [])
    (he : extract_best t.customer_name (cs.map (fun c => c.customer_name)) 75 =
      none)
    (hs : splitSp t.customer_name = p0 :: p1 :: rest) :
    resolveTransaction firstNames lastNames cs t =
      Except.ok
        [{ transaction_id := t.transaction_id, amount := t.amount,
           transaction_date := t.transaction_date,
           customer_id_1 := t.customer_id, email_1 := t.email,
           customer_id_2 := [' '], email_2 := [' '],
           customer_name := p0 ++ ' ' :: p1 }] :=
  resolveTransaction_unmatched hf hl he hs

theorem claim_C10_witness :
    (["xx".toList] : List PyStr) ≠ [] ∧
    resolveTransaction ["xx".toList] ["yy".toList]
      [{ customer_id := "8".toList, email := "b@y".toList,
         customer_name := "ab".toList }]
      { transaction_id := "1".toList, amount := "10".toList,
        transaction_date := "d1".toList, customer_id := "7".toList,
        email := "a@x".toList, customer_name := "cd qq".toList } =
      Except.ok
        [{ transaction_id := "1".toList, amount := "10".toList,
           transaction_date := "d1".toList, customer_id_1 := "7".toList,
           email_1 := "a@x".toList, customer_id_2 := [' '], email_2 := [' '],
           customer_name := "cd".toList ++ ' ' :: "qq".toList }] :=
  ⟨by decide,
   claim_C10_unmatched_fallback (by decide) (by decide)
     (by with_unfolding_all rfl) rfl⟩
